import Mathlib

/-!
Verification development for the Cockpit SUDO Manager repository.

The repository is a Cockpit plugin: several JavaScript front-end variants
(`index.js`, the modular `js/` variant, and the React variant under `src/`)
that talk to a Python backend (`backend/sudo-manager.py`) over
`cockpit.spawn`.  This file gives a shallow embedding of the front-end
logic the specification's claims are about — catalog loading, payload
construction, custom-command handling, deletion dispatch — together with a
model of the backend's validate-then-publish step described in §4.5 of the
specification (the Python backend sources are not part of this tree, so
that one component is modelled from the specification's words).

JavaScript strings are embedded as Lean `String`s; the handful of string
primitives the code uses (`trim`, `split("\n")`, `join(", ")`,
`startsWith`, `substring(1)`, the unsafe-character regex) are defined here
over the underlying character lists so that every definition evaluates by
`decide` on concrete inputs.
-/

/-! ## JavaScript string primitives -/

/-- Whitespace predicate used by `jsTrim` (space, tab, newline, carriage
return — the characters relevant to the inputs this UI handles). -/
def isJsWs (c : Char) : Bool := c = ' ' || c = '\t' || c = '\n' || c = '\r'

/-- Trim on character lists: drop leading and trailing whitespace. -/
def trimChars (l : List Char) : List Char :=
  ((l.dropWhile isJsWs).reverse.dropWhile isJsWs).reverse

/-- JavaScript `s.trim()`. -/
def jsTrim (s : String) : String := ⟨trimChars s.data⟩

/-- JavaScript `a.join(sep)` on an array of strings. -/
def jsJoin (sep : String) : List String → String
  | [] => ""
  | [x] => x
  | x :: y :: xs => x ++ sep ++ jsJoin sep (y :: xs)

/-- JavaScript `s.split("\n")` on character lists: split at every newline,
keeping empty pieces (`"".split("\n")` is `[""]`). -/
def splitNl : List Char → List (List Char)
  | [] => [[]]
  | c :: cs =>
    match splitNl cs with
    | [] => [[]]
    | l :: ls => if c = '\n' then [] :: l :: ls else (c :: l) :: ls

/-- JavaScript `s.split("\n")` returning strings. -/
def jsSplitNl (s : String) : List String := (splitNl s.data).map (⟨·⟩)

/-- Helper for reasoning about `splitNl` over appends: prepend `x` to the
first chunk of a chunk list. -/
def mergeHead (x : List Char) : List (List Char) → List (List Char)
  | [] => [x]
  | h :: t => (x ++ h) :: t

/-- All chunks but the last (`splitNl` output is never empty). -/
def dropLastChunk : List (List Char) → List (List Char)
  | [] => []
  | [_] => []
  | x :: y :: t => x :: dropLastChunk (y :: t)

/-- The last chunk. -/
def lastChunk : List (List Char) → List Char
  | [] => []
  | [x] => x
  | _ :: y :: t => lastChunk (y :: t)

/-- JavaScript `s.startsWith(p)` for a one-character p. -/
def jsStartsWithChar (s : String) (c : Char) : Bool := s.data.head? = some c

/-- JavaScript `s.substring(1)`. -/
def jsSubstring1 (s : String) : String := ⟨s.data.tail⟩

/-! ## §4.5 Validator / atomic writer (modelled from the spec)

The filesystem is an association list from paths to file contents. -/

/-- Lookup of a file's content. -/
def fsRead : List (String × String) → String → Option String
  | [], _ => none
  | e :: es, p => if e.1 = p then some e.2 else fsRead es p

/-- Overwrite (or create) the file at `p` with content `t`. -/
def fsWrite (fs : List (String × String)) (p t : String) : List (String × String) :=
  (fs.filter (fun e => e.1 ≠ p)) ++ [(p, t)]

/-- Remove the file at `p`. -/
def fsDelete (fs : List (String × String)) (p : String) : List (String × String) :=
  fs.filter (fun e => e.1 ≠ p)

/-- Result of `publish`: success, or the failure that in the backend is
raised as `SyntaxError` carrying the external checker's diagnostic text. -/
inductive PublishResult where
  | ok : PublishResult
  | checkerRejected (diag : String) : PublishResult
  deriving DecidableEq, Repr

/-- Modelled from the spec: the backend's `publish(path, text)`
(`backend/sudo_validate.py` / `sudo_rules.py`, not present in this tree).
Per §4.5: write `text` to a scratch file next to `path`, run the external
sudoers syntax checker on the combined candidate configuration, and only on
a zero exit code atomically rename the scratch file over the destination;
on non-zero exit delete the scratch file and fail with the checker's
diagnostic text.  The checker is a parameter mapping the candidate
filesystem to an exit code and diagnostic. -/
def publish (checker : List (String × String) → Nat × String)
    (fs : List (String × String)) (path text : String) :
    PublishResult × List (String × String) :=
  let scratch := path ++ ".tmp"
  let fs1 := fsWrite fs scratch text
  let res := checker fs1
  if res.1 = 0 then
    (.ok, fsWrite (fsDelete fs1 scratch) path text)
  else
    (.checkerRejected res.2, fsDelete fs1 scratch)

/-! ## Custom commands (part_008 / part_009: render() onclick and
`saveCustomCommand`) -/

/-- Characters matched by the unsafe-command regex `[;&|$\x60]|&&|\|\|`
in the add-custom-command click handler (the doubled `&&` and `||`
alternatives are subsumed by the character class). -/
def unsafeChars : List Char := [';', '&', '|', '$', '`']

/-- Whether the command contains any character of the unsafe class. -/
def hasUnsafeChar (s : String) : Bool := s.data.any (fun c => unsafeChars.contains c)

/-- The add-custom-command click handler: trims the input, ignores an empty
result, rejects a command not starting with `/` ("Command must be an
absolute path") and one matching the unsafe-character regex ("Unsafe
characters in command"); otherwise hands the trimmed command to
`saveCustomCommand`. -/
def addCustomCommandClick (input : String) : Option String :=
  let cmd := jsTrim input
  if cmd = "" then none
  else if jsStartsWithChar cmd '/' = false then none
  else if hasUnsafeChar cmd = true then none
  else some cmd

/-- In-browser state touched by `saveCustomCommand`: the content of the
`commands.local` registry file and the `availableCommands` list. -/
structure CustomState where
  content : String
  avail : List String
  deriving DecidableEq, Repr

/-- JavaScript `content.split("\n").filter(Boolean)`: the non-empty lines
of the registry file. -/
def jsLines (s : String) : List String :=
  ((splitNl s.data).filter (· ≠ [])).map (⟨·⟩)

/-- `saveCustomCommand(cmd)`: if `cmd` is already among the registry file's
non-empty lines or in `availableCommands`, only the UI selection changes
(modelled as no state change, `false` = no write); otherwise the file is
replaced by `content + cmd + "\n"` and `cmd` is pushed onto
`availableCommands` (`true` = write happened). -/
def saveCustomCommand (cmd : String) (st : CustomState) : CustomState × Bool :=
  if cmd ∈ jsLines st.content ∨ cmd ∈ st.avail then (st, false)
  else ({ content := st.content ++ cmd ++ "\n", avail := st.avail ++ [cmd] }, true)

/-- The full add-custom-command flow: validation in the click handler, then
`saveCustomCommand` for a command that passed. -/
def customCommandFlow (input : String) (st : CustomState) : CustomState × Bool :=
  match addCustomCommandClick input with
  | none => (st, false)
  | some cmd => saveCustomCommand cmd st

/-! ## Modal registry (part_007, `js/registry.js`) -/

/-- DOM state read by `MODALS.group`: the group field, run-as field,
allow-all checkbox, selected command options — plus a `nopasswd` component
standing for any password checkbox state present in the UI, which the group
apply handler never reads. -/
structure GroupModalState where
  group : String
  runas : String
  allowAll : Bool
  selected : List String
  nopasswd : Bool
  deriving DecidableEq, Repr

/-- `MODALS.group.apply`: requires a non-empty trimmed group name and
either allow-all or at least one selected command; always spawns
`["update-group", group, runas, "passwd", cmds]` — the mode argument is the
literal `"passwd"`. -/
def groupApply (st : GroupModalState) : Option (List String) :=
  let group := jsTrim st.group
  if group = "" then none
  else
    let runas := if st.runas = "" then "root" else st.runas
    if st.allowAll = false ∧ st.selected = [] then none
    else
      let cmds := if st.allowAll then "ALL" else jsJoin ", " st.selected
      some ["update-group", group, runas, "passwd", cmds]

/-- DOM state read by `applyRule` (part_009) / `MODALS.user.apply`
(part_007): user, run-as, allow-all and nopasswd checkboxes, selected
command options. -/
structure UserModalState where
  user : String
  runas : String
  allowAll : Bool
  selected : List String
  nopasswd : Bool
  deriving DecidableEq, Repr

/-- `applyRule` (part_009; identically `MODALS.user.apply` in part_007 up
to its missing empty-selection guard being present in both): requires a
non-empty trimmed user and either allow-all or a non-empty selection, then
spawns `["update", user, runas, mode, cmds]` where `cmds` is `"ALL"` under
allow-all and otherwise the comma-joined selected options. -/
def applyRule (st : UserModalState) : Option (List String) :=
  let user := jsTrim st.user
  if user = "" then none
  else
    let runas := if st.runas = "" then "root" else st.runas
    let mode := if st.nopasswd then "nopasswd" else "passwd"
    if st.allowAll = false ∧ st.selected = [] then none
    else
      let cmds := if st.allowAll then "ALL" else jsJoin ", " st.selected
      some ["update", user, runas, mode, cmds]

/-- JavaScript `s.split("\n").map(x => x.trim()).filter(Boolean)`. -/
def splitTrimFilter (s : String) : List String :=
  ((jsSplitNl s).map jsTrim).filter (· ≠ "")

/-- `MODALS.alias.apply` (part_007): reads the alias type, trimmed name and
member lines; alerts (no backend call) unless all three are non-empty, else
spawns `["add-alias", type, name, ...members]`. -/
def aliasApply (typ nameRaw membersRaw : String) : Option (List String) :=
  let name := jsTrim nameRaw
  let members := splitTrimFilter membersRaw
  if typ = "" ∨ name = "" ∨ members = [] then none
  else some (["add-alias", typ, name] ++ members)

/-! ## React forms (src/src/components) -/

/-- The payload object built by `SudoUserForm.handleSave` (part_001; the
variant in `SudoForm.jsx` builds the same object minus `custom_commands`). -/
structure UserFormData where
  user : String
  runas : String
  all : Bool
  commands : List String
  custom_commands : List String
  nopasswd : Bool
  noexec : Bool
  setenv : Bool
  log_input : Bool
  log_output : Bool
  deriving DecidableEq, Repr

/-- `SudoUserForm.handleSave`: under allow-all both command lists are
empty; otherwise `commands` is the selection as-is and `custom_commands`
the trimmed non-empty lines of the textarea. -/
def handleSave (user runAs : String) (allowAll : Bool)
    (selectedCommands : List String) (customCommands : String)
    (nopasswd noexec setenv logInput logOutput : Bool) : UserFormData :=
  { user := user
    runas := runAs
    all := allowAll
    commands := if allowAll then [] else selectedCommands
    custom_commands := if allowAll then [] else splitTrimFilter customCommands
    nopasswd := nopasswd
    noexec := noexec
    setenv := setenv
    log_input := logInput
    log_output := logOutput }

/-- `SudoAliasForm` submission: the Save button is disabled unless alias
type and name are non-empty; `handleSave` itself puts the trimmed non-empty
member lines in the payload and calls `onSave` unconditionally (no check
that the member list is non-empty). -/
def sudoAliasFormSubmit (aliasType aliasName membersText : String) :
    Option (String × String × List String) :=
  if aliasType = "" ∨ aliasName = "" then none
  else some (aliasType, aliasName, splitTrimFilter membersText)

/-! ## app.jsx: deletion dispatch and backend operation names -/

/-- `handleDelete` (src/src/app.jsx): a principal starting with the group
sigil `%` is deleted through the group operation with the sigil stripped
(`rule.user.substring(1)`); any other principal through the user operation
with the name unchanged.  Returns (operation, principal argument). -/
def handleDelete (user : String) : String × String :=
  if jsStartsWithChar user '%' then ("delete-group-json", jsSubstring1 user)
  else ("delete-json", user)

/-- First positional argument of every invocation of
`backend/sudo-manager.py` in the repository, one entry per call site:
`index.js` (list, update, delete), part_008 (list, update, delete),
part_009 (catalog, list, update, delete), `js/registry.js` = part_007
(update, add-alias, update-group), `js/catalog.js` (catalog),
`src/utils/catalog.js` and part_004 (catalog), and `src/app.jsx`
(list from the initial load and after each save/delete, update-json,
update-group-json, add-alias-json, delete-group-json, delete-json).
The `sh -c cat` catalog fallback in `index.js`/part_008 does not invoke the
backend and has no entry. -/
def backendOpNames : List String :=
  ["list", "update", "delete",
   "list", "update", "delete",
   "catalog", "list", "update", "delete",
   "update", "add-alias", "update-group",
   "catalog",
   "catalog", "catalog",
   "list", "update-json", "update-group-json", "add-alias-json",
   "delete-group-json", "delete-json"]

/-- The dispatcher operation set named by the specification (§4.6). -/
def specDispatcherOps : List String :=
  ["list", "catalog", "update", "update-group", "delete", "delete-group",
   "add-alias"]

/-- The additional `-json` operation names used by the React front end. -/
def jsonDispatcherOps : List String :=
  ["update-json", "update-group-json", "delete-json", "delete-group-json",
   "add-alias-json"]

/-! ## Command catalog (src/src/utils/catalog.js, js/catalog.js, index.js) -/

/-- One category section of the backend's catalog JSON:
`{command_aliases: {name: [paths]}, raw_commands: [paths]}`. -/
structure CatalogSection where
  command_aliases : List (String × List String)
  raw_commands : List String
  deriving DecidableEq, Repr

/-- `availableCommands.push` guarded by `!availableCommands.includes(x)`. -/
def addUnique (acc : List String) (x : String) : List String :=
  if x ∈ acc then acc else acc ++ [x]

/-- Body of the `forEach` in the line-based `loadCommandCatalog`
(`index.js`, part_008): trim the line, push it if non-empty and not yet
present. -/
def jsLineStep (acc : List String) (raw : String) : List String :=
  if jsTrim raw ≠ "" ∧ jsTrim raw ∉ acc then acc ++ [jsTrim raw] else acc

/-- Line-based `loadCommandCatalog` (`index.js`, part_008): accumulate
`availableCommands` over the lines of the concatenated catalog files. -/
def loadCommandCatalogLines (out : String) : List String :=
  (jsSplitNl out).foldl jsLineStep []

/-- Catalog-based `loadCommandCatalog` (`src/utils/catalog.js`,
`js/catalog.js`, part_009): for each section push its alias names, then its
raw commands, each deduplicated against `availableCommands`. -/
def loadCommandCatalogSections (sections : List CatalogSection) : List String :=
  sections.foldl
    (fun acc s =>
      s.raw_commands.foldl addUnique
        ((s.command_aliases.map Prod.fst).foldl addUnique acc))
    []

/-- One `<option>`-level entry built by `getCategorizedCommands`. -/
structure CmdOption where
  value : String
  label : String
  isAlias : Bool
  commands : Option (List String)
  deriving DecidableEq, Repr

/-- The options contributed by one category: its command aliases (in
declaration order), then its raw commands. -/
def optionsOfSection (s : CatalogSection) : List CmdOption :=
  s.command_aliases.map (fun a => ⟨a.1, a.1, true, some a.2⟩) ++
    s.raw_commands.map (fun c => ⟨c, c, false, none⟩)

/-- Lexicographic comparison of strings by character code, the order
`Object.keys(catalog).sort()` uses. -/
def strLexLe : List Char → List Char → Bool
  | [], _ => true
  | _ :: _, [] => false
  | a :: as, b :: bs =>
    if a.toNat < b.toNat then true
    else if b.toNat < a.toNat then false
    else strLexLe as bs

/-- Category order on catalog entries: compare the category names. -/
def catKeyLe (a b : String × CatalogSection) : Prop :=
  strLexLe a.1.data b.1.data = true

instance : DecidableRel catKeyLe := fun a b => by
  unfold catKeyLe; infer_instance

/-- `getCategorizedCommands` (src/src/utils/catalog.js): sort the
categories lexically, give each category its alias options followed by its
raw-command options, and keep only categories that contribute at least one
option. -/
def getCategorizedCommands (catalog : List (String × CatalogSection)) :
    List (String × List CmdOption) :=
  (List.insertionSort catKeyLe catalog).filterMap (fun e =>
    if optionsOfSection e.2 = [] then none else some (e.1, optionsOfSection e.2))

/-! ## Helper lemmas -/

theorem splitNl_ne_nil (l : List Char) : splitNl l ≠ [] := by
  cases l with
  | nil => simp [splitNl]
  | cons c cs =>
    simp only [splitNl]
    cases splitNl cs with
    | nil => simp
    | cons x xs =>
      by_cases h : c = '\n' <;> simp [h]

theorem fsRead_append (fs gs : List (String × String)) (q : String) :
    fsRead (fs ++ gs) q = (fsRead fs q).or (fsRead gs q) := by
  induction fs with
  | nil => simp [fsRead]
  | cons e es ih =>
    by_cases h : e.1 = q <;> simp [fsRead, h, ih]

theorem fsRead_fsDelete (fs : List (String × String)) (p q : String) :
    fsRead (fsDelete fs p) q = if q = p then none else fsRead fs q := by
  induction fs with
  | nil => simp [fsRead, fsDelete]
  | cons e es ih =>
    by_cases hep : e.1 = p
    · have : ¬ (e.1 ≠ p) := by simp [hep]
      by_cases hq : q = p
      · simpa [fsDelete, List.filter_cons, this, hq] using ih
      · have heq : ¬ e.1 = q := by rw [hep]; exact fun hc => hq hc.symm
        simp only [fsDelete, List.filter_cons] at ih ⊢
        simp [this, fsRead, heq, hq] at ih ⊢
        simpa [fsDelete, hq] using ih
    · simp only [fsDelete, List.filter_cons] at ih ⊢
      by_cases heq : e.1 = q
      · have hq : ¬ q = p := fun hc => hep (heq.symm ▸ hc ▸ rfl)
        simp [hep, fsRead, heq, hq]
      · simp [hep, fsRead, heq] at ih ⊢
        simpa [fsDelete] using ih

theorem fsRead_fsWrite (fs : List (String × String)) (p t q : String) :
    fsRead (fsWrite fs p t) q = if q = p then some t else fsRead fs q := by
  show fsRead ((fsDelete fs p) ++ [(p, t)]) q = _
  rw [fsRead_append, fsRead_fsDelete]
  by_cases hq : q = p
  · simp [fsRead, hq]
  · have : ¬ p = q := fun hc => hq hc.symm
    simp [fsRead, hq, this]

theorem path_ne_scratch (path : String) : path ≠ path ++ ".tmp" := by
  intro h
  have hl := congrArg String.length h
  rw [String.length_append] at hl
  have h4 : (".tmp" : String).length = 4 := by decide
  rw [h4] at hl
  omega

/-! ## C1: publish is atomic on checker failure -/

/-- C1: for every call of `publish(path, text)` in which the external
sudoers syntax checker exits non-zero, the destination file at `path` is
byte-identical to its content before the call, the scratch file is deleted,
and the call returns the `SyntaxError`-style failure carrying the checker's
diagnostic text.  (Modelled from the spec §4.5; the Python backend is not
part of this tree.) -/
theorem publish_checker_failure_atomic
    (checker : List (String × String) → Nat × String)
    (fs : List (String × String)) (path text diag : String) (code : Nat)
    (hch : checker (fsWrite fs (path ++ ".tmp") text) = (code, diag))
    (hcode : code ≠ 0) :
    (publish checker fs path text).1 = .checkerRejected diag ∧
    fsRead (publish checker fs path text).2 path = fsRead fs path ∧
    fsRead (publish checker fs path text).2 (path ++ ".tmp") = none := by
  have hne : ¬ path = path ++ ".tmp" := path_ne_scratch path
  unfold publish
  simp only [hch]
  rw [if_neg hcode]
  refine ⟨rfl, ?_, ?_⟩
  · rw [fsRead_fsDelete, if_neg hne, fsRead_fsWrite, if_neg hne]
  · rw [fsRead_fsDelete, if_pos rfl]

/-- Witness: a checker that always fails leaves `/etc/sudoers.d/alice`
holding its old content and no scratch file. -/
theorem publish_checker_failure_atomic_witness :
    (publish (fun _ => (1, "visudo: parse error"))
        [("/etc/sudoers.d/alice", "alice ALL=(root) ALL\n")]
        "/etc/sudoers.d/alice" "garbage").1 = .checkerRejected "visudo: parse error" ∧
    fsRead (publish (fun _ => (1, "visudo: parse error"))
        [("/etc/sudoers.d/alice", "alice ALL=(root) ALL\n")]
        "/etc/sudoers.d/alice" "garbage").2 "/etc/sudoers.d/alice"
      = fsRead [("/etc/sudoers.d/alice", "alice ALL=(root) ALL\n")] "/etc/sudoers.d/alice" ∧
    fsRead (publish (fun _ => (1, "visudo: parse error"))
        [("/etc/sudoers.d/alice", "alice ALL=(root) ALL\n")]
        "/etc/sudoers.d/alice" "garbage").2 ("/etc/sudoers.d/alice" ++ ".tmp") = none :=
  publish_checker_failure_atomic (fun _ => (1, "visudo: parse error"))
    [("/etc/sudoers.d/alice", "alice ALL=(root) ALL\n")]
    "/etc/sudoers.d/alice" "garbage" "visudo: parse error" 1 rfl (by decide)

/-! ## C2: custom-command validation happens before any write -/

/-- C2: a rejected custom command causes no state change at all; a command
that reaches `saveCustomCommand` starts with `/` and contains none of the
unsafe characters; and whenever the registry file changes, it changed by
appending a command that passed both checks. -/
theorem customCommand_validated_before_write (input : String) (st : CustomState) :
    (addCustomCommandClick input = none → customCommandFlow input st = (st, false)) ∧
    (∀ cmd, addCustomCommandClick input = some cmd →
      jsStartsWithChar cmd '/' = true ∧ hasUnsafeChar cmd = false) ∧
    ((customCommandFlow input st).1.content ≠ st.content →
      ∃ cmd, addCustomCommandClick input = some cmd ∧
        jsStartsWithChar cmd '/' = true ∧ hasUnsafeChar cmd = false ∧
        (customCommandFlow input st).1.content = st.content ++ cmd ++ "\n") :=
  by
  have hsome : ∀ cmd, addCustomCommandClick input = some cmd →
      jsStartsWithChar cmd '/' = true ∧ hasUnsafeChar cmd = false := by
    intro cmd h
    by_cases h1 : jsTrim input = ""
    · simp [addCustomCommandClick, h1] at h
    · by_cases h2 : jsStartsWithChar (jsTrim input) '/' = false
      · simp [addCustomCommandClick, h1, h2] at h
      · by_cases h3 : hasUnsafeChar (jsTrim input) = true
        · simp [addCustomCommandClick, h1, h2, h3] at h
        · simp [addCustomCommandClick, h1, h2, h3] at h
          rw [← h]
          exact ⟨eq_true_of_ne_false h2, eq_false_of_ne_true h3⟩
  refine ⟨?_, hsome, ?_⟩
  · intro h
    unfold customCommandFlow
    rw [h]
  · intro hch
    unfold customCommandFlow at hch ⊢
    cases hc : addCustomCommandClick input with
    | none =>
      rw [hc] at hch
      exact absurd rfl hch
    | some cmd =>
      rw [hc] at hch
      dsimp only at hch ⊢
      unfold saveCustomCommand at hch ⊢
      split_ifs at hch ⊢ with hmem
      · exact absurd rfl hch
      · exact ⟨cmd, rfl, (hsome cmd hc).1, (hsome cmd hc).2, rfl⟩

/-- Witness: a padded absolute command passes validation trimmed; a
command with a shell metacharacter never reaches `saveCustomCommand`. -/
theorem customCommand_validated_before_write_witness :
    (addCustomCommandClick "  /usr/bin/zypper up  " = some "/usr/bin/zypper up") ∧
    (jsStartsWithChar "/usr/bin/zypper up" '/' = true ∧
      hasUnsafeChar "/usr/bin/zypper up" = false) ∧
    (addCustomCommandClick "/bin/sh; rm -rf /" = none) ∧
    customCommandFlow "/bin/sh; rm -rf /" ⟨"", []⟩ = (⟨"", []⟩, false) :=
  ⟨by decide,
   (customCommand_validated_before_write "  /usr/bin/zypper up  " ⟨"", []⟩).2.1
     "/usr/bin/zypper up" (by decide),
   by decide,
   (customCommand_validated_before_write "/bin/sh; rm -rf /" ⟨"", []⟩).1 (by decide)⟩

/-! ## C3: group rules always go out with the password-required mode -/

/-- C3: every `update-group` invocation produced by `MODALS.group.apply`
carries the literal mode `"passwd"` in the fourth argument position, and
the handler's output does not depend on any nopasswd checkbox state — so a
group rule is always forced to password mode before it reaches the
backend's compiler. -/
theorem updateGroup_always_passwd (st : GroupModalState) :
    (∀ args, groupApply st = some args →
      args[0]? = some "update-group" ∧ args[3]? = some "passwd") ∧
    (∀ b, groupApply { st with nopasswd := b } = groupApply st) := by
  constructor
  · intro args h
    by_cases h1 : jsTrim st.group = ""
    · simp [groupApply, h1] at h
    · by_cases h2 : st.allowAll = false ∧ st.selected = []
      · simp [groupApply, h1, h2] at h
      · simp [groupApply, h1, h2] at h
        rw [← h]
        exact ⟨rfl, rfl⟩
  · intro b
    rfl

/-- Witness: a group modal whose (ignored) nopasswd state is checked still
produces a `"passwd"` mode argument. -/
theorem updateGroup_always_passwd_witness :
    groupApply ⟨"admins", "", false, ["/usr/bin/systemctl restart nginx"], true⟩
      = some ["update-group", "admins", "root", "passwd",
              "/usr/bin/systemctl restart nginx"] ∧
    (["update-group", "admins", "root", "passwd",
      "/usr/bin/systemctl restart nginx"] : List String)[0]? = some "update-group" ∧
    (["update-group", "admins", "root", "passwd",
      "/usr/bin/systemctl restart nginx"] : List String)[3]? = some "passwd" :=
  ⟨by decide,
   (updateGroup_always_passwd
      ⟨"admins", "", false, ["/usr/bin/systemctl restart nginx"], true⟩).1
      ["update-group", "admins", "root", "passwd",
       "/usr/bin/systemctl restart nginx"] (by decide)⟩

/-! ## C4: command payload under allow-all and explicit selection -/

/-- C4: in the positional protocol (`applyRule`), the command argument is
the literal `"ALL"` when allow-all is checked and otherwise exactly the
comma-joined selected tokens in order (no deduplication, no reordering);
in the JSON protocol (`SudoUserForm.handleSave`), `commands` is empty under
allow-all and otherwise exactly the selected list. -/
theorem commands_payload_exact (st : UserModalState) (user runAs : String)
    (allowAll : Bool) (selected : List String) (custom : String)
    (f1 f2 f3 f4 f5 : Bool) :
    (∀ args, applyRule st = some args →
      (st.allowAll = true → args[4]? = some "ALL") ∧
      (st.allowAll = false → args[4]? = some (jsJoin ", " st.selected))) ∧
    ((handleSave user runAs allowAll selected custom f1 f2 f3 f4 f5).commands
      = if allowAll then [] else selected) := by
  constructor
  · intro args h
    by_cases h1 : jsTrim st.user = ""
    · simp [applyRule, h1] at h
    · by_cases h2 : st.allowAll = false ∧ st.selected = []
      · simp [applyRule, h1, h2] at h
      · simp [applyRule, h1, h2] at h
        rw [← h]
        constructor
        · intro hall; simp [hall]
        · intro hall; simp [hall]
  · rfl

/-- Witness: a selection with a duplicate and a deliberate order survives
verbatim, and allow-all produces the `ALL` token / the empty list. -/
theorem commands_payload_exact_witness :
    applyRule ⟨"alice", "root", false, ["/b", "/a", "/b"], true⟩
      = some ["update", "alice", "root", "nopasswd", "/b, /a, /b"] ∧
    (["update", "alice", "root", "nopasswd", "/b, /a, /b"] : List String)[4]?
      = some (jsJoin ", " ["/b", "/a", "/b"]) ∧
    (handleSave "alice" "root" true ["/b", "/a"] "" false false false false false).commands
      = [] ∧
    (handleSave "alice" "root" false ["/b", "/a"] "" false false false false false).commands
      = ["/b", "/a"] :=
  ⟨by decide,
   ((commands_payload_exact ⟨"alice", "root", false, ["/b", "/a", "/b"], true⟩
       "alice" "root" false ["/b", "/a"] "" false false false false false).1
     ["update", "alice", "root", "nopasswd", "/b, /a, /b"] (by decide)).2 rfl,
   by decide, by decide⟩

/-! ## C5: deletion dispatches on the group sigil -/

/-- C5: `handleDelete` sends a principal whose name starts with `%` to the
group delete operation with the sigil stripped, and any other principal to
the user delete operation with the name unchanged. -/
theorem handleDelete_group_sigil (user : String) :
    (∀ rest : List Char, user.data = '%' :: rest →
      handleDelete user = ("delete-group-json", ⟨rest⟩)) ∧
    (jsStartsWithChar user '%' = false →
      handleDelete user = ("delete-json", user)) := by
  constructor
  · intro rest hdata
    have hstart : jsStartsWithChar user '%' = true := by
      simp [jsStartsWithChar, hdata]
    unfold handleDelete
    rw [hstart]
    simp [jsSubstring1, hdata]
  · intro hstart
    unfold handleDelete
    rw [hstart]
    simp

/-- Witness: the rule listed for `%admins` is deleted as group `admins`;
the rule for `bob` is deleted as user `bob`. -/
theorem handleDelete_group_sigil_witness :
    handleDelete "%admins" = ("delete-group-json", "admins") ∧
    handleDelete "bob" = ("delete-json", "bob") :=
  ⟨(handleDelete_group_sigil "%admins").1 "admins".data (by decide),
   (handleDelete_group_sigil "bob").2 (by decide)⟩

/-! ## C7: the set of operation names actually invoked -/

/-- C7 counterexample: `src/app.jsx` invokes the backend with first
argument `"update-json"`, which is not in the specification's dispatcher
operation set `{list, catalog, update, update-group, delete, delete-group,
add-alias}`. -/
theorem backendOps_outside_spec_set :
    "update-json" ∈ backendOpNames ∧ "update-json" ∉ specDispatcherOps := by
  decide

/-- C7 amended: every backend invocation places exactly one operation name
first, and that name is drawn from the specification's dispatcher set
extended with the React front end's `-json` variants. -/
theorem backendOps_within_extended_set (op : String) :
    op ∈ backendOpNames → op ∈ specDispatcherOps ++ jsonDispatcherOps := by
  intro h
  fin_cases h <;> decide

/-- Witness: the React update operation is among the call sites and inside
the extended set. -/
theorem backendOps_within_extended_set_witness :
    "update-json" ∈ backendOpNames ∧
    "update-json" ∈ specDispatcherOps ++ jsonDispatcherOps :=
  ⟨by decide, backendOps_within_extended_set "update-json" (by decide)⟩

/-! ## C8: alias submissions with an empty member list -/

/-- C8 counterexample: in the React `SudoAliasForm`, a submission with a
chosen type, a non-empty name and a whitespace-only members textarea is not
rejected — `handleSave` forwards the payload with an empty `members`
sequence to the backend (`add-alias-json`). -/
theorem aliasForm_empty_members_reaches_backend :
    sudoAliasFormSubmit "Cmnd_Alias" "DEPLOY" " \n  " =
      some ("Cmnd_Alias", "DEPLOY", []) := by
  decide

/-- C8 amended: the modal-registry variant (`MODALS.alias.apply`) invokes
`add-alias` only when the type is chosen, the trimmed name is non-empty and
the parsed member list is non-empty, sending exactly those fields; the
React `SudoAliasForm` enforces only that type and name are non-empty (via
the disabled Save button) and does not reject an empty member list. -/
theorem aliasApply_guards (typ nameRaw membersRaw t n m : String) :
    (∀ args, aliasApply typ nameRaw membersRaw = some args →
      typ ≠ "" ∧ jsTrim nameRaw ≠ "" ∧ splitTrimFilter membersRaw ≠ [] ∧
      args = ["add-alias", typ, jsTrim nameRaw] ++ splitTrimFilter membersRaw) ∧
    (∀ d, sudoAliasFormSubmit t n m = some d → t ≠ "" ∧ n ≠ "") := by
  constructor
  · intro args h
    by_cases hg : typ = "" ∨ jsTrim nameRaw = "" ∨ splitTrimFilter membersRaw = []
    · simp [aliasApply, hg] at h
    · push_neg at hg
      refine ⟨hg.1, hg.2.1, hg.2.2, ?_⟩
      simp [aliasApply, hg.1, hg.2.1, hg.2.2] at h
      exact h.symm
  · intro d h
    by_cases hg : t = "" ∨ n = ""
    · simp [sudoAliasFormSubmit, hg] at h
    · push_neg at hg
      exact hg

/-- Witness: a fully populated alias submission passes the registry guard
with exactly the parsed members. -/
theorem aliasApply_guards_witness :
    aliasApply "Cmnd_Alias" " WEB_CMDS " "/usr/sbin/nginx\n\n /usr/sbin/apachectl \n" =
      some ["add-alias", "Cmnd_Alias", "WEB_CMDS", "/usr/sbin/nginx",
            "/usr/sbin/apachectl"] ∧
    ("Cmnd_Alias" : String) ≠ "" ∧
    jsTrim " WEB_CMDS " ≠ "" ∧
    splitTrimFilter "/usr/sbin/nginx\n\n /usr/sbin/apachectl \n" ≠ [] ∧
    (["add-alias", "Cmnd_Alias", "WEB_CMDS", "/usr/sbin/nginx",
      "/usr/sbin/apachectl"] : List String) =
      ["add-alias", "Cmnd_Alias", jsTrim " WEB_CMDS "] ++
        splitTrimFilter "/usr/sbin/nginx\n\n /usr/sbin/apachectl \n" :=
  ⟨by decide,
   (aliasApply_guards "Cmnd_Alias" " WEB_CMDS "
      "/usr/sbin/nginx\n\n /usr/sbin/apachectl \n" "t" "n" "m").1
     ["add-alias", "Cmnd_Alias", "WEB_CMDS", "/usr/sbin/nginx",
      "/usr/sbin/apachectl"] (by decide)⟩

/-! ## C9: availableCommands never accumulates duplicates -/

theorem nodup_push {α : Type} (l : List α) (x : α) (h : l.Nodup) (hx : x ∉ l) :
    (l ++ [x]).Nodup := by
  induction l with
  | nil => simp
  | cons a as ih =>
    rw [List.nodup_cons] at h
    rw [List.cons_append, List.nodup_cons]
    refine ⟨?_, ih h.2 (fun hc => hx (List.mem_cons_of_mem a hc))⟩
    intro hc
    rcases List.mem_append.mp hc with hmem | hmem
    · exact h.1 hmem
    · rw [List.mem_singleton] at hmem
      exact hx (hmem ▸ List.mem_cons_self a as)

theorem addUnique_nodup (acc : List String) (x : String) (h : acc.Nodup) :
    (addUnique acc x).Nodup := by
  unfold addUnique
  split_ifs with hmem
  · exact h
  · exact nodup_push acc x h hmem

theorem foldl_addUnique_nodup (xs : List String) :
    ∀ acc : List String, acc.Nodup → (xs.foldl addUnique acc).Nodup := by
  induction xs with
  | nil => intro acc h; exact h
  | cons x xs ih =>
    intro acc h
    rw [List.foldl_cons]
    exact ih _ (addUnique_nodup acc x h)

theorem jsLineFold_invariant (P : String → Prop) (rs : List String) :
    ∀ acc : List String, acc.Nodup → (∀ e ∈ acc, e ≠ "" ∧ P e) →
      (∀ raw ∈ rs, P (jsTrim raw)) →
      (rs.foldl jsLineStep acc).Nodup ∧
        ∀ e ∈ rs.foldl jsLineStep acc, e ≠ "" ∧ P e := by
  induction rs with
  | nil => intro acc h1 h2 _; exact ⟨h1, h2⟩
  | cons raw rs ih =>
    intro acc h1 h2 h3
    rw [List.foldl_cons]
    refine ih _ ?_ ?_ (fun r hr => h3 r (List.mem_cons_of_mem _ hr))
    · unfold jsLineStep
      split_ifs with hc
      · exact nodup_push acc _ h1 hc.2
      · exact h1
    · intro e he
      simp only [jsLineStep] at he
      split_ifs at he with hc
      · rcases List.mem_append.mp he with hm | hm
        · exact h2 e hm
        · rw [List.mem_singleton] at hm
          subst hm
          exact ⟨hc.1, h3 raw (List.mem_cons_self raw rs)⟩
      · exact h2 e he

theorem sectionsFold_nodup (ss : List CatalogSection) :
    ∀ acc : List String, acc.Nodup →
      (ss.foldl
        (fun acc s =>
          s.raw_commands.foldl addUnique
            ((s.command_aliases.map Prod.fst).foldl addUnique acc)) acc).Nodup := by
  induction ss with
  | nil => intro acc h; exact h
  | cons s ss ih =>
    intro acc h
    rw [List.foldl_cons]
    exact ih _ (foldl_addUnique_nodup _ _ (foldl_addUnique_nodup _ _ h))

/-- C9: after either loader finishes, `availableCommands` holds no
duplicate entries — for every backend/catalog output — and in the
line-based loader every entry is the trim of one of the input's lines and
is non-empty. -/
theorem availableCommands_invariants (out : String) (sections : List CatalogSection) :
    (loadCommandCatalogLines out).Nodup ∧
    (∀ e ∈ loadCommandCatalogLines out,
      e ≠ "" ∧ ∃ raw ∈ jsSplitNl out, e = jsTrim raw) ∧
    (loadCommandCatalogSections sections).Nodup := by
  have h := jsLineFold_invariant
    (fun e => ∃ raw ∈ jsSplitNl out, e = jsTrim raw)
    (jsSplitNl out) [] List.nodup_nil (by intro e he; cases he)
    (fun raw hr => ⟨raw, hr, rfl⟩)
  exact ⟨h.1, h.2, sectionsFold_nodup sections [] List.nodup_nil⟩

/-- Witness: the concatenated catalog text with a duplicated, padded entry
loads each command once, and a catalog repeating an alias name across
sections keeps `availableCommands` duplicate-free. -/
theorem availableCommands_invariants_witness :
    loadCommandCatalogLines "SYSTEMCTL_STATUS\n /usr/bin/zypper \n\n/usr/bin/zypper"
      = ["SYSTEMCTL_STATUS", "/usr/bin/zypper"] ∧
    (loadCommandCatalogLines "SYSTEMCTL_STATUS\n /usr/bin/zypper \n\n/usr/bin/zypper").Nodup ∧
    (("SYSTEMCTL_STATUS" : String) ≠ "" ∧
      ∃ raw ∈ jsSplitNl "SYSTEMCTL_STATUS\n /usr/bin/zypper \n\n/usr/bin/zypper",
        ("SYSTEMCTL_STATUS" : String) = jsTrim raw) ∧
    loadCommandCatalogSections
        [⟨[("ZYPPER_CMDS", ["/usr/bin/zypper"])], ["/usr/bin/rpm"]⟩,
         ⟨[("ZYPPER_CMDS", ["/usr/bin/zypper"])], ["/usr/bin/rpm", "/usr/bin/dnf"]⟩]
      = ["ZYPPER_CMDS", "/usr/bin/rpm", "/usr/bin/dnf"] ∧
    (loadCommandCatalogSections
        [⟨[("ZYPPER_CMDS", ["/usr/bin/zypper"])], ["/usr/bin/rpm"]⟩,
         ⟨[("ZYPPER_CMDS", ["/usr/bin/zypper"])], ["/usr/bin/rpm", "/usr/bin/dnf"]⟩]).Nodup :=
  ⟨by decide,
   (availableCommands_invariants
     "SYSTEMCTL_STATUS\n /usr/bin/zypper \n\n/usr/bin/zypper" []).1,
   (availableCommands_invariants
     "SYSTEMCTL_STATUS\n /usr/bin/zypper \n\n/usr/bin/zypper" []).2.1
     "SYSTEMCTL_STATUS" (by decide),
   by decide,
   (availableCommands_invariants ""
     [⟨[("ZYPPER_CMDS", ["/usr/bin/zypper"])], ["/usr/bin/rpm"]⟩,
      ⟨[("ZYPPER_CMDS", ["/usr/bin/zypper"])], ["/usr/bin/rpm", "/usr/bin/dnf"]⟩]).2.2⟩

/-! ## C10: saveCustomCommand idempotence and the appended line -/

theorem dropLastChunk_cons (x : List Char) (S : List (List Char)) (h : S ≠ []) :
    dropLastChunk (x :: S) = x :: dropLastChunk S := by
  cases S with
  | nil => exact absurd rfl h
  | cons y t => rfl

theorem lastChunk_cons (x : List Char) (S : List (List Char)) (h : S ≠ []) :
    lastChunk (x :: S) = lastChunk S := by
  cases S with
  | nil => exact absurd rfl h
  | cons y t => rfl

theorem dropLastChunk_append_two (X : List (List Char)) (u v : List Char) :
    dropLastChunk (X ++ [u, v]) = X ++ [u] := by
  induction X with
  | nil => rfl
  | cons x xs ih =>
    rw [List.cons_append, dropLastChunk_cons x (xs ++ [u, v]) (by simp), ih,
      List.cons_append]

theorem lastChunk_append_two (X : List (List Char)) (u v : List Char) :
    lastChunk (X ++ [u, v]) = v := by
  induction X with
  | nil => rfl
  | cons x xs ih =>
    rw [List.cons_append, lastChunk_cons x (xs ++ [u, v]) (by simp), ih]

theorem splitNl_cons_nl (cs : List Char) :
    splitNl ('\n' :: cs) = [] :: splitNl cs := by
  obtain ⟨l, ls, hS⟩ := List.exists_cons_of_ne_nil (splitNl_ne_nil cs)
  simp only [splitNl]
  rw [hS]
  simp

theorem splitNl_cons_other (c : Char) (cs : List Char) (hc : c ≠ '\n')
    (l : List Char) (ls : List (List Char)) (hS : splitNl cs = l :: ls) :
    splitNl (c :: cs) = (c :: l) :: ls := by
  simp only [splitNl]
  rw [hS]
  simp [hc]

theorem splitNl_append (a b : List Char) :
    splitNl (a ++ b) =
      dropLastChunk (splitNl a) ++ mergeHead (lastChunk (splitNl a)) (splitNl b) := by
  induction a with
  | nil =>
    obtain ⟨h, t, hb⟩ := List.exists_cons_of_ne_nil (splitNl_ne_nil b)
    simp [splitNl, hb, mergeHead, dropLastChunk, lastChunk]
  | cons c cs ih =>
    obtain ⟨l, ls, hS⟩ := List.exists_cons_of_ne_nil (splitNl_ne_nil cs)
    by_cases hc : c = '\n'
    · subst hc
      rw [List.cons_append, splitNl_cons_nl (cs ++ b), ih, splitNl_cons_nl cs, hS,
        dropLastChunk_cons [] (l :: ls) (by simp),
        lastChunk_cons [] (l :: ls) (by simp), List.cons_append]
    · obtain ⟨m, ms, hM⟩ := List.exists_cons_of_ne_nil (splitNl_ne_nil (cs ++ b))
      rw [List.cons_append, splitNl_cons_other c (cs ++ b) hc m ms hM,
        splitNl_cons_other c cs hc l ls hS]
      rw [ih, hS] at hM
      cases ls with
      | nil =>
        obtain ⟨hb1, hb2, hb⟩ := List.exists_cons_of_ne_nil (splitNl_ne_nil b)
        simp only [dropLastChunk, lastChunk, mergeHead, hb, List.nil_append] at hM ⊢
        cases hM
        rw [List.cons_append]
      | cons l2 ls2 =>
        rw [dropLastChunk_cons l (l2 :: ls2) (by simp),
          lastChunk_cons l (l2 :: ls2) (by simp), List.cons_append] at hM
        cases hM
        rw [dropLastChunk_cons (c :: l) (l2 :: ls2) (by simp),
          lastChunk_cons (c :: l) (l2 :: ls2) (by simp), List.cons_append]

theorem splitNl_no_newline (l : List Char) (h : ∀ c ∈ l, c ≠ '\n') :
    splitNl l = [l] := by
  induction l with
  | nil => rfl
  | cons c cs ih =>
    have hcs := ih (fun d hd => h d (List.mem_cons_of_mem c hd))
    exact splitNl_cons_other c cs (h c (List.mem_cons_self c cs)) cs [] hcs

theorem splitNl_cmd_nl (cmd : List Char) (hnl : ∀ c ∈ cmd, c ≠ '\n') :
    splitNl (cmd ++ ['\n']) = [cmd, []] := by
  rw [splitNl_append, splitNl_no_newline cmd hnl]
  simp [dropLastChunk, lastChunk, mergeHead, splitNl]

theorem jsLines_append_cmdline (content cmd : String)
    (hend : content = "" ∨ ∃ pre : String, content = pre ++ "\n")
    (hne : cmd ≠ "") (hnl : ∀ c ∈ cmd.data, c ≠ '\n') :
    jsLines (content ++ cmd ++ "\n") = jsLines content ++ [cmd] := by
  have hdne : cmd.data ≠ [] := by
    intro hc
    apply hne
    cases cmd
    simp at hc
    rw [hc]
  have hCnl : splitNl (cmd.data ++ ['\n']) = [cmd.data, []] := splitNl_cmd_nl cmd.data hnl
  cases hend with
  | inl h =>
    subst h
    have hdata : ("" ++ cmd ++ "\n").data = cmd.data ++ ['\n'] := by
      rw [String.data_append, String.data_append]
      rfl
    unfold jsLines
    rw [hdata, hCnl]
    simp [hdne, splitNl]
  | inr h =>
    obtain ⟨pre, hpre⟩ := h
    subst hpre
    have hdata1 : (pre ++ "\n").data = pre.data ++ ['\n'] := by
      rw [String.data_append]
    have hdata2 : (pre ++ "\n" ++ cmd ++ "\n").data =
        (pre.data ++ ['\n']) ++ (cmd.data ++ ['\n']) := by
      rw [String.data_append, String.data_append, String.data_append]
      simp
    have hsp : splitNl (pre.data ++ ['\n']) =
        dropLastChunk (splitNl pre.data) ++ [lastChunk (splitNl pre.data), []] := by
      rw [splitNl_append]
      congr 1
      show mergeHead _ (splitNl ['\n']) = _
      rw [show splitNl ['\n'] = [[], []] from rfl]
      simp [mergeHead]
    unfold jsLines
    rw [hdata2, splitNl_append, hdata1, hsp,
      dropLastChunk_append_two, lastChunk_append_two, hCnl]
    rw [show mergeHead [] [cmd.data, []] = [cmd.data, []] from by simp [mergeHead]]
    by_cases hL : lastChunk (splitNl pre.data) = [] <;> simp [hL, hdne]

/-- C10 counterexample: with registry content `"/a"` (no trailing newline)
and `"/b"` not present in the file's lines nor in `availableCommands`, the
code does write, but the new registry content `"/a/b\n"` has lines
`["/a/b"]` — the write merged into the previous line instead of appending
one new line holding the command. -/
theorem saveCustomCommand_line_merge_counterexample :
    ("/b" ∉ jsLines "/a") ∧ ((saveCustomCommand "/b" ⟨"/a", []⟩).2 = true) ∧
    (saveCustomCommand "/b" ⟨"/a", []⟩).1.content = "/a/b\n" ∧
    jsLines (saveCustomCommand "/b" ⟨"/a", []⟩).1.content = ["/a/b"] ∧
    jsLines (saveCustomCommand "/b" ⟨"/a", []⟩).1.content ≠ jsLines "/a" ++ ["/b"] := by
  decide

/-- C10 amended: a command already among the registry file's non-empty
lines or in `availableCommands` causes no file write and no second copy in
`availableCommands`; otherwise the text `cmd + "\n"` is appended to the
file content and `cmd` once to `availableCommands` — which yields exactly
one new line holding the command provided the prior content is empty or
ends in a newline (and the command, as every value of the single-line
input, is non-empty without embedded newlines). -/
theorem saveCustomCommand_idempotent_append (cmd : String) (st : CustomState) :
    (cmd ∈ jsLines st.content ∨ cmd ∈ st.avail →
      saveCustomCommand cmd st = (st, false)) ∧
    (cmd ∉ jsLines st.content → cmd ∉ st.avail →
      (saveCustomCommand cmd st).1.content = st.content ++ cmd ++ "\n" ∧
      (saveCustomCommand cmd st).1.avail = st.avail ++ [cmd] ∧
      (saveCustomCommand cmd st).2 = true) ∧
    (cmd ∉ jsLines st.content → cmd ∉ st.avail →
      (st.content = "" ∨ ∃ pre : String, st.content = pre ++ "\n") →
      cmd ≠ "" → (∀ c ∈ cmd.data, c ≠ '\n') →
      jsLines (saveCustomCommand cmd st).1.content = jsLines st.content ++ [cmd]) := by
  refine ⟨?_, ?_, ?_⟩
  · intro h
    rw [saveCustomCommand, if_pos h]
  · intro h1 h2
    rw [saveCustomCommand, if_neg (by tauto)]
    exact ⟨rfl, rfl, rfl⟩
  · intro h1 h2 hend hne hnl
    rw [saveCustomCommand, if_neg (by tauto)]
    exact jsLines_append_cmdline st.content cmd hend hne hnl

/-- Witness: re-adding a present command changes nothing; adding a new one
to a newline-terminated registry appends exactly one line holding it. -/
theorem saveCustomCommand_idempotent_append_witness :
    saveCustomCommand "/a" ⟨"/a\n", []⟩ = (⟨"/a\n", []⟩, false) ∧
    (saveCustomCommand "/usr/local/bin/deploy.sh" ⟨"/a\n", []⟩).1.content
      = "/a\n" ++ "/usr/local/bin/deploy.sh" ++ "\n" ∧
    jsLines (saveCustomCommand "/usr/local/bin/deploy.sh" ⟨"/a\n", []⟩).1.content
      = jsLines "/a\n" ++ ["/usr/local/bin/deploy.sh"] :=
  ⟨(saveCustomCommand_idempotent_append "/a" ⟨"/a\n", []⟩).1 (Or.inl (by decide)),
   ((saveCustomCommand_idempotent_append "/usr/local/bin/deploy.sh"
       ⟨"/a\n", []⟩).2.1 (by decide) (by decide)).1,
   (saveCustomCommand_idempotent_append "/usr/local/bin/deploy.sh"
       ⟨"/a\n", []⟩).2.2 (by decide) (by decide) (Or.inr ⟨"/a", by decide⟩)
     (by decide) (by decide)⟩

/-! ## C6: categorized command list ordering -/

theorem strLexLe_total (a b : List Char) : strLexLe a b = true ∨ strLexLe b a = true := by
  induction a generalizing b with
  | nil => left; rfl
  | cons x xs ih =>
    cases b with
    | nil => right; rfl
    | cons y ys =>
      by_cases h1 : x.toNat < y.toNat
      · left; simp [strLexLe, h1]
      · by_cases h2 : y.toNat < x.toNat
        · right; simp [strLexLe, h2]
        · rcases ih ys with h | h
          · left; simp [strLexLe, h1, h2, h]
          · right; simp [strLexLe, h1, h2, h]

theorem strLexLe_trans {a b c : List Char} (h1 : strLexLe a b = true)
    (h2 : strLexLe b c = true) : strLexLe a c = true := by
  induction a generalizing b c with
  | nil => rfl
  | cons x xs ih =>
    cases b with
    | nil => simp [strLexLe] at h1
    | cons y ys =>
      cases c with
      | nil => simp [strLexLe] at h2
      | cons z zs =>
        simp only [strLexLe] at h1 h2 ⊢
        by_cases hxy : x.toNat < y.toNat <;> by_cases hyz : y.toNat < z.toNat <;>
          simp [hxy, hyz] at h1 h2 ⊢
        · left; omega
        · rcases h2 with ⟨hzy, h2⟩; left; omega
        · rcases h1 with ⟨hxy2, h1⟩; left; omega
        · rcases h1 with ⟨hxy2, h1⟩
          rcases h2 with ⟨hyz2, h2⟩
          right
          exact ⟨le_trans hxy2 hyz2, ih h1 h2⟩

instance : IsTotal (String × CatalogSection) catKeyLe :=
  ⟨fun a b => strLexLe_total a.1.data b.1.data⟩

instance : IsTrans (String × CatalogSection) catKeyLe :=
  ⟨fun _ _ _ h1 h2 => strLexLe_trans h1 h2⟩

theorem optionsOfSection_split (s : CatalogSection) :
    ∃ as rs, optionsOfSection s = as ++ rs ∧ (∀ o ∈ as, o.isAlias = true) ∧
      ∀ o ∈ rs, o.isAlias = false := by
  refine ⟨_, _, rfl, ?_, ?_⟩
  · intro o ho
    obtain ⟨x, _, hxo⟩ := List.mem_map.mp ho
    rw [← hxo]
  · intro o ho
    obtain ⟨x, _, hxo⟩ := List.mem_map.mp ho
    rw [← hxo]

/-- C6: `getCategorizedCommands` presents the catalog's categories in
strictly ascending lexical order (so every entry derived from a smaller
category name precedes every entry derived from a larger one), within each
category the alias options precede the raw-command options, and a category
contributing no options is omitted. -/
theorem getCategorizedCommands_ordered (catalog : List (String × CatalogSection))
    (hkeys : (catalog.map Prod.fst).Nodup) :
    List.Pairwise (fun p q => strLexLe p.1.data q.1.data = true ∧ p.1 ≠ q.1)
      (getCategorizedCommands catalog) ∧
    ∀ p ∈ getCategorizedCommands catalog,
      p.2 ≠ [] ∧
      ∃ as rs, p.2 = as ++ rs ∧ (∀ o ∈ as, o.isAlias = true) ∧
        ∀ o ∈ rs, o.isAlias = false := by
  have hsorted : List.Sorted catKeyLe (List.insertionSort catKeyLe catalog) :=
    List.sorted_insertionSort catKeyLe catalog
  have hperm := List.perm_insertionSort catKeyLe catalog
  have hnodup : ((List.insertionSort catKeyLe catalog).map Prod.fst).Nodup :=
    ((hperm.map Prod.fst).symm).nodup hkeys
  have hne : List.Pairwise (fun p q : String × CatalogSection => p.1 ≠ q.1)
      (List.insertionSort catKeyLe catalog) := List.pairwise_map.mp hnodup
  have hcomb : List.Pairwise
      (fun p q : String × CatalogSection => catKeyLe p q ∧ p.1 ≠ q.1)
      (List.insertionSort catKeyLe catalog) := hsorted.and hne
  constructor
  · unfold getCategorizedCommands
    rw [List.pairwise_filterMap]
    refine hcomb.imp ?_
    intro a b hab x hx y hy
    by_cases ha : optionsOfSection a.2 = []
    · simp [ha] at hx
    · by_cases hb : optionsOfSection b.2 = []
      · simp [hb] at hy
      · simp [ha] at hx
        simp [hb] at hy
        rw [← hx, ← hy]
        exact ⟨hab.1, hab.2⟩
  · intro p hp
    unfold getCategorizedCommands at hp
    rw [List.mem_filterMap] at hp
    obtain ⟨e, _, hfe⟩ := hp
    by_cases hopt : optionsOfSection e.2 = []
    · simp [hopt] at hfe
    · simp [hopt] at hfe
      rw [← hfe]
      obtain ⟨as, rs, hsplit, h1, h2⟩ := optionsOfSection_split e.2
      exact ⟨hopt, as, rs, hsplit, h1, h2⟩

/-- Witness: with categories supplied out of order, `00-aliases` entries
come before `40-packages` entries and the empty `05-policy` category is
dropped; within `40-packages` the alias precedes the raw command. -/
theorem getCategorizedCommands_ordered_witness :
    ([("40-packages",
        (⟨[("ZYPPER_CMDS", ["/usr/bin/zypper"])], ["/usr/bin/rpm"]⟩ : CatalogSection)),
      ("00-aliases",
        ⟨[("SYSTEMCTL_STATUS", ["/usr/bin/systemctl status"])], []⟩),
      ("05-policy", ⟨[], []⟩)].map Prod.fst).Nodup ∧
    getCategorizedCommands
        [("40-packages", ⟨[("ZYPPER_CMDS", ["/usr/bin/zypper"])], ["/usr/bin/rpm"]⟩),
         ("00-aliases", ⟨[("SYSTEMCTL_STATUS", ["/usr/bin/systemctl status"])], []⟩),
         ("05-policy", ⟨[], []⟩)]
      = [("00-aliases",
            [⟨"SYSTEMCTL_STATUS", "SYSTEMCTL_STATUS", true,
              some ["/usr/bin/systemctl status"]⟩]),
         ("40-packages",
            [⟨"ZYPPER_CMDS", "ZYPPER_CMDS", true, some ["/usr/bin/zypper"]⟩,
             ⟨"/usr/bin/rpm", "/usr/bin/rpm", false, none⟩])] ∧
    List.Pairwise (fun p q => strLexLe p.1.data q.1.data = true ∧ p.1 ≠ q.1)
      (getCategorizedCommands
        [("40-packages", ⟨[("ZYPPER_CMDS", ["/usr/bin/zypper"])], ["/usr/bin/rpm"]⟩),
         ("00-aliases", ⟨[("SYSTEMCTL_STATUS", ["/usr/bin/systemctl status"])], []⟩),
         ("05-policy", ⟨[], []⟩)]) :=
  ⟨by decide, by decide,
   (getCategorizedCommands_ordered
      [("40-packages", ⟨[("ZYPPER_CMDS", ["/usr/bin/zypper"])], ["/usr/bin/rpm"]⟩),
       ("00-aliases", ⟨[("SYSTEMCTL_STATUS", ["/usr/bin/systemctl status"])], []⟩),
       ("05-policy", ⟨[], []⟩)] (by decide)).1⟩
